import Mathlib

/-!
Verification development for the `microfefind` Kubernetes controller.

The Rust source is shallowly embedded:

* `crossbeam_skiplist::SkipMap<String, V>` is modelled as an association
  list `List (String × V)` with unique keys; the skip-list's sorted
  iteration order is irrelevant to every property proved here, which are
  all stated extensionally via `alookup`.
* `tokio` tasks are modelled by a task system `TaskSys` that allocates
  fresh numeric task ids on `spawn` and removes ids from the live set on
  `abort`.
* wall-clock reads (`time::now_as_millis` / `time::now_as_secs`) are
  modelled by explicit `Nat` arguments threaded into each operation,
  one per clock read performed by the source.
* `AtomicU64` fields shared by reference between the layers
  (`updated_millis`) are modelled by keeping the single authoritative
  value in the owning `IngressHostPath`; writes performed by the child
  monitors are represented as writes to that field.
-/

/-- Model of Rust `str::starts_with` on owned strings. -/
def rStartsWith (s pat : String) : Bool :=
  pat.data.isPrefixOf s.data

/-- Replace the first occurrence of `pat` in `l` by the empty string,
    i.e. the `List Char` core of Rust `String::replacen(pat, "", 1)`. -/
def replaceFirstAux (pat : List Char) : List Char → List Char
  | [] => []
  | c :: cs =>
    if pat.isPrefixOf (c :: cs) then (c :: cs).drop pat.length
    else c :: replaceFirstAux pat cs

/-- Model of Rust `String::replacen(pat, "", 1)`: remove the first
    occurrence of `pat`, leaving the string unchanged when `pat` does
    not occur. -/
def replacen1 (s pat : String) : String :=
  String.mk (replaceFirstAux pat.data s.data)

/-- Lookup in the association-list model of `SkipMap`. -/
def alookup {α : Type} (k : String) : List (String × α) → Option α
  | [] => none
  | kv :: m => if kv.1 = k then some kv.2 else alookup k m

/-- Key list of an association-list map. -/
def akeys {α : Type} (m : List (String × α)) : List String :=
  m.map Prod.fst

/-- Model of `SkipMap::insert`: replace the value when the key is
    present, append a fresh entry otherwise. -/
def ainsert {α : Type} (m : List (String × α)) (k : String) (v : α) :
    List (String × α) :=
  if k ∈ akeys m then
    m.map (fun kv => if kv.1 = k then (k, v) else kv)
  else m ++ [(k, v)]

/-- Model of collecting an iterator of pairs into a `SkipMap`
    (`FromIterator for SkipMap`), i.e. repeated `insert`. -/
def amapCollect {α : Type} (l : List (String × α)) : List (String × α) :=
  l.foldl (fun m kv => ainsert m kv.1 kv.2) []

/-- Model of `SkipMap::remove` for a single key. -/
def aremove {α : Type} (m : List (String × α)) (k : String) :
    List (String × α) :=
  m.filter (fun kv => !(kv.1 == k))

/-- Model of the tokio runtime as seen by the monitors: a supply of fresh
    task ids and the set of ids of currently live (not yet aborted) tasks. -/
structure TaskSys where
  nextId : Nat
  live : List Nat

/-- Model of `tokio::spawn`: allocate a fresh task id and mark it live. -/
def TaskSys.spawn (sys : TaskSys) : Nat × TaskSys :=
  (sys.nextId, { nextId := sys.nextId + 1, live := sys.nextId :: sys.live })

/-- Model of `AbortHandle::abort`: the task stops being live. -/
def TaskSys.abort (sys : TaskSys) (id : Nat) : TaskSys :=
  { sys with live := sys.live.erase id }

/-- Model of a `Pod` as read by `pod_monitor.rs`: name, status phase and
    the `(kind, name)` owner references. -/
structure Pod where
  name : String
  phase : String
  owner_references : List (String × String)

/-- The `kind + "/" + name` rendering of one owner reference
    (pod_monitor.rs lines 104-106 and 165-167). -/
def ownerKey (r : String × String) : String :=
  r.1 ++ "/" ++ r.2

/-- Model of `PodMonitor` (pod_monitor.rs). `watch_task` and `sweep_task`
    are ghost bookkeeping recording the ids of the two tasks spawned in
    `start_background_tasks`; `abort_handle` models the
    `Mutex<Option<AbortHandle>>` field, which the source fills only with
    the handle of the second (sweep) spawn — the first spawn's
    `JoinHandle` is discarded (line 69). -/
structure PodMonitor where
  abort_handle : Option Nat
  nspace : String
  label_selector : String
  owner_references : List (String × Nat)
  watch_task : Nat
  sweep_task : Nat

/-- Model of `PodMonitor::new` followed by `start_background_tasks`:
    spawn the watch task, spawn the sweep task, store only the sweep
    task's abort handle. -/
def PodMonitor.new (nspace label_selector : String) (sys : TaskSys) :
    PodMonitor × TaskSys :=
  let w := sys.spawn
  let s := w.2.spawn
  ({ abort_handle := some s.1, nspace := nspace, label_selector := label_selector,
     owner_references := [], watch_task := w.1, sweep_task := s.1 }, s.2)

/-- Model of `PodMonitor::abort_background_tasks`: abort whatever handle
    is stored (only the sweep task's handle ever is). -/
def PodMonitor.abort_background_tasks (pm : PodMonitor) (sys : TaskSys) : TaskSys :=
  match pm.abort_handle with
  | some h => sys.abort h
  | none => sys

/-- Model of `PodMonitor::handle_update` for one pod event: get-or-insert
    every rendered owner reference with the current seconds timestamp,
    reporting whether any insert happened (a previously unknown owner). -/
def PodMonitor.handle_update (pm : PodMonitor) (pod : Pod) (now_s : Nat) :
    PodMonitor × Bool :=
  let r := (pod.owner_references.map ownerKey).foldl
    (fun acc o =>
      match alookup o acc.1 with
      | some _ => acc
      | none => (acc.1 ++ [(o, now_s)], true))
    (pm.owner_references, false)
  ({ pm with owner_references := r.1 }, r.2)

/-- Phase 1 of the sweep task (pod_monitor.rs lines 98-113): for every
    listed pod's owners, bump the stored timestamp to `now` — but only
    when the owner is already present (`get(..).is_some()` guard). -/
def sweepBumpOwner (now : Nat) (m : List (String × Nat)) (o : String) :
    List (String × Nat) :=
  if (alookup o m).isSome then ainsert m o now else m

/-- Phase 1 over the whole listed pod set. -/
def sweepListPhase (m : List (String × Nat)) (pods : List Pod) (now : Nat) :
    List (String × Nat) :=
  pods.foldl (fun m pod => (pod.owner_references.map ownerKey).foldl (sweepBumpOwner now) m) m

/-- Phase 2 of the sweep task (pod_monitor.rs lines 121-130): remove every
    entry whose stored timestamp is strictly below `now`. -/
def sweepRemovePhase (m : List (String × Nat)) (now : Nat) : List (String × Nat) :=
  m.filter (fun kv => ! decide (kv.2 < now))

/-- One complete pass of the sweep task with the captured time `now_s`
    and the pod list returned by the API. -/
def PodMonitor.sweep_pass (pm : PodMonitor) (pods : List Pod) (now_s : Nat) :
    PodMonitor :=
  { pm with owner_references := sweepRemovePhase (sweepListPhase pm.owner_references pods now_s) now_s }

/-- All owner keys appearing on the listed pods. -/
def podOwnerKeys (pods : List Pod) : List String :=
  (pods.map (fun pod => pod.owner_references.map ownerKey)).flatten

/-- Model of `ServiceMonitor` (service_monitor.rs): the abort handle of
    its single watch task and the slot for the current `PodMonitor`. -/
structure ServiceMonitor where
  abort_handle : Option Nat
  nspace : String
  service_name : String
  pod_monitor : Option PodMonitor

/-- Model of `ServiceMonitor::new` followed by `start_background_tasks`:
    spawn the service watch task and store its abort handle. -/
def ServiceMonitor.new (nspace service_name : String) (sys : TaskSys) :
    ServiceMonitor × TaskSys :=
  let w := sys.spawn
  ({ abort_handle := some w.1, nspace := nspace, service_name := service_name,
     pod_monitor := none }, w.2)

/-- Model of `ServiceMonitor::abort_background_tasks`: abort the own
    watch task, then delegate to the inner `PodMonitor` if present. -/
def ServiceMonitor.abort_background_tasks (sm : ServiceMonitor) (sys : TaskSys) : TaskSys :=
  let sys1 := match sm.abort_handle with
    | some h => sys.abort h
    | none => sys
  match sm.pod_monitor with
  | some pm => pm.abort_background_tasks sys1
  | none => sys1

/-- The `k1=v1,k2=v2` rendering of a service's pod selector map
    (service_monitor.rs lines 124-132). -/
def renderSelector (sel : List (String × String)) : String :=
  sel.enum.foldl
    (fun acc p =>
      acc ++ p.2.1 ++ "=" ++ p.2.2 ++ (if p.1 < sel.length - 1 then "," else ""))
    ""

/-- Model of `ServiceMonitor::handle_update` for one streamed service:
    when no `PodMonitor` exists or its selector string differs, build a
    new `PodMonitor` and put it into the slot. `Option::insert` returns
    a reference to the value just inserted, so the source's
    `old_pod_monitor.abort_background_tasks()` call aborts the NEW
    monitor's stored handle, not the replaced one; the model reproduces
    that. Returns the monitor, the task state and whether a change was
    detected (in which case the caller's shared `updated_millis` is
    written). -/
def ServiceMonitor.handle_update (sm : ServiceMonitor)
    (selector : List (String × String)) (sys : TaskSys) :
    ServiceMonitor × TaskSys × Bool :=
  let label_selector := renderSelector selector
  let changed := match sm.pod_monitor with
    | some pm => if pm.label_selector = label_selector then false else true
    | none => true
  if changed then
    let r := PodMonitor.new sm.nspace label_selector sys
    let sys2 := r.1.abort_background_tasks r.2
    ({ sm with pod_monitor := some r.1 }, sys2, true)
  else (sm, sys, false)

/-- Model of `IngressHostPath` (ingress_host_path.rs). The shared
    `Arc<AtomicU64>` updated timestamp lives here; writes that the child
    monitors perform through their shared handle are modelled as writes
    to this field. -/
structure IngressHostPath where
  updated_millis : Nat
  host : String
  path : String
  annotations : List (String × String)
  service_monitor : Option ServiceMonitor

/-- `IngressHostPath::identifier`: plain concatenation of host and path. -/
def IngressHostPath.identifier (host path : String) : String :=
  host ++ path

/-- `IngressHostPath::host_path`. -/
def IngressHostPath.host_path (e : IngressHostPath) : String :=
  IngressHostPath.identifier e.host e.path

/-- `IngressHostPath::annotations_map`: the reader's snapshot of the
    annotations, as an extensional map. -/
def IngressHostPath.annotations_map (e : IngressHostPath) : String → Option String :=
  fun k => alookup k e.annotations

/-- Model of `IngressHostPath::new`: timestamp starts at 0, annotations
    empty, and a freshly spawned `ServiceMonitor` fills the slot. -/
def IngressHostPath.new (host path nspace service_name : String) (sys : TaskSys) :
    IngressHostPath × TaskSys :=
  let r := ServiceMonitor.new nspace service_name sys
  ({ updated_millis := 0, host := host, path := path, annotations := [],
     service_monitor := some r.1 }, r.2)

/-- Model of `IngressHostPath::service_name_update`: compare against the
    current `ServiceMonitor`'s name; on a difference abort the old
    monitor, construct a new one for the old namespace and the new name,
    install it, and store the current time. The `None` branch models the
    source's `unwrap` on a slot that is never empty in a reachable
    state. -/
def IngressHostPath.service_name_update (e : IngressHostPath)
    (service_name : String) (now : Nat) (sys : TaskSys) :
    IngressHostPath × TaskSys :=
  match e.service_monitor with
  | none => (e, sys)
  | some sm =>
    if sm.service_name = service_name then (e, sys)
    else
      let sys1 := sm.abort_background_tasks sys
      let r := ServiceMonitor.new sm.nspace service_name sys1
      ({ e with service_monitor := some r.1, updated_millis := now }, r.2)

/-- The `change` detection of `IngressHostPath::annotations_update`
    (ingress_host_path.rs lines 120-133): a difference in length, or
    some incoming key absent from the stored set or mapped to a
    different value. -/
def annotationsChange (old anns : List (String × String)) : Bool :=
  if anns.length ≠ old.length then true
  else anns.any (fun kv =>
    match alookup kv.1 old with
    | some v => if kv.2 = v then false else true
    | none => true)

/-- Model of `IngressHostPath::annotations_update`: detect a change by
    length and per-key comparison of the incoming set against the stored
    one; on change, clear and re-insert (collect) the incoming set and
    store the current time. -/
def IngressHostPath.annotations_update (e : IngressHostPath)
    (anns : List (String × String)) (now : Nat) : IngressHostPath :=
  if annotationsChange e.annotations anns then
    { e with annotations := amapCollect anns, updated_millis := now }
  else e

/-- The filtered annotation set built in
    `IngressMonitor::update_ingress_host_paths` (ingress_monitor.rs lines
    215-228): keep the annotations whose key starts with the configured
    prefix, strip the prefix by a single `replacen(.., "", 1)`, and
    collect into a map. -/
def filterAnnotations (pfx : String) (anns : List (String × String)) :
    List (String × String) :=
  amapCollect (anns.filterMap (fun kv =>
    if rStartsWith kv.1 pfx then some (replacen1 kv.1 pfx, kv.2) else none))

/-- Model of an `Ingress` as consumed by `ingress_monitor.rs`: its
    metadata name and annotations, and for each rule the host together
    with the `(path, backend service name)` pairs. All the `unwrap`ed
    optional fields of the Kubernetes object are modelled as present. -/
structure Ingress where
  name : String
  annotations : List (String × String)
  rules : List (String × List (String × String))

/-- Model of `IngressMonitor` (ingress_monitor.rs): the configured
    annotation prefix, the readiness flag and the catalog. The per
    namespace watcher tasks spawned by `start_background_monitoring` are
    not tracked; only the work they perform is modelled. -/
structure IngressMonitor where
  annotationPfx : String
  health_ready : Bool
  monitored_ingress_host_paths : List (String × IngressHostPath)

/-- Model of `IngressMonitor::new`: readiness starts false, catalog empty. -/
def IngressMonitor.new (pfx : String) : IngressMonitor :=
  { annotationPfx := pfx, health_ready := false, monitored_ingress_host_paths := [] }

/-- `IngressMonitor::is_health_started`: loads the `health_ready` flag. -/
def IngressMonitor.is_health_started (m : IngressMonitor) : Bool :=
  m.health_ready

/-- `IngressMonitor::is_health_ready`: loads the same `health_ready` flag. -/
def IngressMonitor.is_health_ready (m : IngressMonitor) : Bool :=
  m.health_ready

/-- `IngressMonitor::is_health_live`: constant true. -/
def IngressMonitor.is_health_live (_ : IngressMonitor) : Bool :=
  true

/-- `IngressMonitor::get_all`: the current catalog entries. -/
def IngressMonitor.get_all (m : IngressMonitor) : List IngressHostPath :=
  m.monitored_ingress_host_paths.map Prod.snd

/-- The `(host, path, backend service name)` triples of an ingress, in
    the nested iteration order of `update_ingress_host_paths`. -/
def ingressHostPathTriples (ing : Ingress) : List (String × String × String) :=
  (ing.rules.map (fun rule => rule.2.map (fun ps => (rule.1, ps.1, ps.2)))).flatten

/-- The catalog keys of an ingress, in the nested iteration order of
    `remove_ingress_host_paths`. -/
def ingressHostPathKeys (ing : Ingress) : List String :=
  (ing.rules.map (fun rule => rule.2.map (fun ps => IngressHostPath.identifier rule.1 ps.1))).flatten

/-- The loop body of `IngressMonitor::update_ingress_host_paths` for one
    `(host, path, service)` triple: insert a fresh entry when the key is
    absent, then run `service_name_update` and `annotations_update` on
    the entry under that key. -/
def upsertHostPath (m : IngressMonitor) (sys : TaskSys) (nspace : String)
    (ing_annotations : List (String × String)) (t : String × String × String)
    (now : Nat) : IngressMonitor × TaskSys :=
  let key := IngressHostPath.identifier t.1 t.2.1
  let r1 :=
    if (alookup key m.monitored_ingress_host_paths).isSome then (m, sys)
    else
      let rn := IngressHostPath.new t.1 t.2.1 nspace t.2.2 sys
      ({ m with monitored_ingress_host_paths :=
          ainsert m.monitored_ingress_host_paths key rn.1 }, rn.2)
  match alookup key r1.1.monitored_ingress_host_paths with
  | none => r1
  | some e =>
    let r2 := e.service_name_update t.2.2 now r1.2
    let e2 := r2.1.annotations_update (filterAnnotations m.annotationPfx ing_annotations) now
    let mm := ainsert r1.1.monitored_ingress_host_paths key e2
    ({ r1.1 with monitored_ingress_host_paths := mm }, r2.2)

/-- Model of `IngressMonitor::update_ingress_host_paths` for a whole
    ingress: the nested loop over rules and paths. -/
def IngressMonitor.update_ingress_host_paths (m : IngressMonitor) (ing : Ingress)
    (nspace : String) (now : Nat) (sys : TaskSys) : IngressMonitor × TaskSys :=
  (ingressHostPathTriples ing).foldl
    (fun acc t => upsertHostPath acc.1 acc.2 nspace ing.annotations t now) (m, sys)

/-- Model of `IngressMonitor::remove_ingress_host_paths`: remove every
    `host||path` key of the ingress from the catalog. Nothing else
    happens: in particular no abort handle is invoked and the task state
    is untouched (there is no `Drop` implementation anywhere in the
    source). -/
def IngressMonitor.remove_ingress_host_paths (m : IngressMonitor) (ing : Ingress) :
    IngressMonitor :=
  { m with monitored_ingress_host_paths :=
      (ingressHostPathKeys ing).foldl (fun mm k => aremove mm k) m.monitored_ingress_host_paths }

/-- Events processed by one namespace's `watch_ingresses` loop
    (ingress_monitor.rs lines 107-179). `listOk` is the successful
    initial list (after which the ready flag is stored true); `listErr`
    is a failed initial list (the namespace's monitoring is cancelled
    without touching the flag); `applied` carries the outcome
    `still_present` of the defensive metadata re-list; `deleted` and
    `restarted` are the remaining watch events. Each event carries the
    wall-clock millisecond value read while handling it. -/
inductive MonEvent where
  | listOk (nspace : String) (ings : List Ingress) (now : Nat)
  | listErr (nspace : String)
  | applied (nspace : String) (ing : Ingress) (still_present : Bool) (now : Nat)
  | deleted (nspace : String) (ing : Ingress)
  | restarted

/-- Whether an event is a successful initial list. -/
def MonEvent.isListOk : MonEvent → Bool
  | .listOk _ _ _ => true
  | _ => false

/-- One step of the `watch_ingresses` dispatch on the monitor state. -/
def monStep (p : IngressMonitor × TaskSys) (ev : MonEvent) : IngressMonitor × TaskSys :=
  match ev with
  | .listOk ns ings now =>
    let q := ings.foldl (fun acc ing => acc.1.update_ingress_host_paths ing ns now acc.2) p
    ({ q.1 with health_ready := true }, q.2)
  | .listErr _ => p
  | .applied ns ing still now =>
    if still then p.1.update_ingress_host_paths ing ns now p.2
    else (p.1.remove_ingress_host_paths ing, p.2)
  | .deleted _ ing => (p.1.remove_ingress_host_paths ing, p.2)
  | .restarted => p

/-- Run a fresh `IngressMonitor` over a sequence of watch events. -/
def runMonitor (pfx : String) (sys : TaskSys) (evs : List MonEvent) :
    IngressMonitor × TaskSys :=
  evs.foldl monStep (IngressMonitor.new pfx, sys)

/-- The events that can reach one catalog entry, each carrying the
    wall-clock values read while handling it: a backing-service-name
    check from an ingress Apply, an annotations check from an ingress
    Apply, a streamed service object (its pod selector map), and a
    streamed pod object. -/
inductive EntryEvent where
  | svcNameUpdate (service_name : String) (now_ms : Nat)
  | annotationsUpdate (anns : List (String × String)) (now_ms : Nat)
  | serviceUpdate (selector : List (String × String)) (now_ms : Nat)
  | podUpdate (pod : Pod) (now_s : Nat) (now_ms : Nat)

/-- The millisecond clock value an event's handler would store into
    `updated_millis` if it detects a change. -/
def EntryEvent.now_ms : EntryEvent → Nat
  | .svcNameUpdate _ now => now
  | .annotationsUpdate _ now => now
  | .serviceUpdate _ now => now
  | .podUpdate _ _ now => now

/-- Dispatch one event to an entry: `service_name_update` and
    `annotations_update` act directly; a streamed service goes through
    `ServiceMonitor::handle_update` (which writes the shared timestamp on
    a selector change); a streamed pod goes through
    `PodMonitor::handle_update` (which writes it on a new owner). -/
def entryStep (e : IngressHostPath) (sys : TaskSys) : EntryEvent → IngressHostPath × TaskSys
  | .svcNameUpdate name now => e.service_name_update name now sys
  | .annotationsUpdate anns now => (e.annotations_update anns now, sys)
  | .serviceUpdate sel now =>
    match e.service_monitor with
    | none => (e, sys)
    | some sm =>
      let r := sm.handle_update sel sys
      if r.2.2 then
        ({ e with service_monitor := some r.1, updated_millis := now }, r.2.1)
      else
        ({ e with service_monitor := some r.1 }, r.2.1)
  | .podUpdate pod now_s now =>
    match e.service_monitor with
    | none => (e, sys)
    | some sm =>
      match sm.pod_monitor with
      | none => (e, sys)
      | some pm =>
        let r := pm.handle_update pod now_s
        let sm2 := { sm with pod_monitor := some r.1 }
        if r.2 then
          ({ e with service_monitor := some sm2, updated_millis := now }, sys)
        else
          ({ e with service_monitor := some sm2 }, sys)

/-- The successive values of `updated_millis` along an event sequence,
    starting with the current value. -/
def updatedTrace (e : IngressHostPath) (sys : TaskSys) : List EntryEvent → List Nat
  | [] => [e.updated_millis]
  | ev :: evs =>
    e.updated_millis :: updatedTrace (entryStep e sys ev).1 (entryStep e sys ev).2 evs

/-- The millisecond clock reads of an event sequence, in order. -/
def eventTimes (evs : List EntryEvent) : List Nat :=
  evs.map EntryEvent.now_ms

/-- The defaults registered by `ApiConfig::set_defaults` under a prefix
    (api_config.rs lines 41-46). -/
def ApiConfig.set_defaults (p : String) : List (String × String) :=
  [(p ++ "." ++ "address", "0.0.0.0"), (p ++ "." ++ "port", "8083")]

/-- The defaults registered by `IngressFilterConfig::set_defaults` under
    a prefix (filter_config.rs lines 43-49). -/
def IngressFilterConfig.set_defaults (p : String) : List (String × String) :=
  [(p ++ "." ++ "labels", "microfe=true"),
   (p ++ "." ++ "annotationprefix", "microfe/"),
   (p ++ "." ++ "namespaces", "")]

/-- The defaults registered by `ResourceLimitsConfig::set_defaults`
    under a prefix (limits_config.rs lines 81-88): the detected cpu
    count always, the detected memory maximum when present. The cgroup
    detection itself is environmental, so the detected values are
    parameters. -/
def ResourceLimitsConfig.set_defaults (p : String) (cpus : String)
    (memory : Option String) : List (String × String) :=
  (match memory with
   | some mem => [(p ++ "." ++ "memory", mem)]
   | none => []) ++ [(p ++ "." ++ "cpus", cpus)]

/-- The deserialization target of `AppConfig` with its three sections
    flattened: field `ingress_labels` models `AppConfig.ingress.labels`
    and so on. `Option` fields are the `Option` typed struct fields. -/
structure AppConfigData where
  api_address : String
  api_port : String
  ingress_labels : String
  ingress_annotation_pfx : String
  ingress_namespaces : Option String
  limits_cpus : String
  limits_memory : Option String

/-- A required struct field: present in the merged configuration or a
    deserialization error. -/
def requireKey (cfg : List (String × String)) (k : String) : Except String String :=
  match alookup k cfg with
  | some v => Except.ok v
  | none => Except.error ("missing field " ++ k)

/-- Model of `Config::try_deserialize::<AppConfig>()`. Modelled from the
    `config`/`serde` crates' behaviour, which the spec describes as
    "Configuration sources, applied in order: built-in defaults → file →
    environment variables": each non-`Option` field of the derived
    `Deserialize` struct must be present under its own section and field
    name in the merged key space, otherwise deserialization errors. -/
def AppConfig.try_deserialize (cfg : List (String × String)) :
    Except String AppConfigData := do
  let address ← requireKey cfg "api.address"
  let port ← requireKey cfg "api.port"
  let labels ← requireKey cfg "ingress.labels"
  let apfx ← requireKey cfg "ingress.annotationprefix"
  let cpus ← requireKey cfg "limits.cpus"
  Except.ok
    { api_address := address, api_port := port, ingress_labels := labels,
      ingress_annotation_pfx := apfx,
      ingress_namespaces := alookup "ingress.namespaces" cfg,
      limits_cpus := cpus, limits_memory := alookup "limits.memory" cfg }

/-- The merged configuration built by `AppConfig::new` (conf.rs lines
    113-133) when no configuration file exists and no environment
    variables are set: only the three `set_defaults` layers contribute,
    and they are registered under the prefixes `"api"`, `"ingressfilter"`
    and `"limits"` passed at lines 114-116. -/
def AppConfig.new_merged_config (cpus : String) (memory : Option String) :
    List (String × String) :=
  ApiConfig.set_defaults "api" ++ IngressFilterConfig.set_defaults "ingressfilter" ++
    ResourceLimitsConfig.set_defaults "limits" cpus memory

/-- Model of `AppConfig::new` with no file and no environment: build the
    defaults and deserialize (the source `unwrap`s the result, so an
    `error` here models a startup panic). -/
def AppConfig.new_model (cpus : String) (memory : Option String) :
    Except String AppConfigData :=
  AppConfig.try_deserialize (AppConfig.new_merged_config cpus memory)



/-- The empty task system used by the concrete scenarios. -/
def sys0 : TaskSys := { nextId := 0, live := [] }

/-- Scenario ingress: one rule advertising `(a.example, /app)` backed by
    `svc-a`, carrying no annotations. -/
def c1Ingress : Ingress :=
  { name := "r1", annotations := [], rules := [("a.example", [("/app", "svc-a")])] }

/-- Scenario: the catalog after upserting `c1Ingress` into a fresh
    monitor (this creates the entry and spawns its service watch task,
    id 0). -/
def c1Step1 : IngressMonitor × TaskSys :=
  (IngressMonitor.new "microfe/").update_ingress_host_paths c1Ingress "default" 5 sys0

/-- Scenario: deliver one streamed service object to the entry, creating
    its PodMonitor (watch task id 1, sweep task id 2; the sweep handle is
    aborted right away by the `Option::insert` quirk), and store the
    mutated entry back into the catalog. -/
def c1Step2 : IngressMonitor × TaskSys :=
  match alookup "a.example/app" c1Step1.1.monitored_ingress_host_paths with
  | some e =>
    let r := entryStep e c1Step1.2 (.serviceUpdate [("app", "demo")] 6)
    let mm := ainsert c1Step1.1.monitored_ingress_host_paths "a.example/app" r.1
    ({ c1Step1.1 with monitored_ingress_host_paths := mm }, r.2)
  | none => c1Step1

/-- Scenario: the monitor after the ingress is deleted. The signature of
    `remove_ingress_host_paths` already shows that the task system is
    not consulted at all. -/
def c1Final : IngressMonitor :=
  c1Step2.1.remove_ingress_host_paths c1Ingress

/-- Scenario: a freshly constructed PodMonitor (watch task id 0, sweep
    task id 1). -/
def c2PodMonitor : PodMonitor × TaskSys :=
  PodMonitor.new "ns-a" "app=demo" sys0

/-- Scenario: the task system after `abort_background_tasks` on it. -/
def c2After : TaskSys :=
  c2PodMonitor.1.abort_background_tasks c2PodMonitor.2

/-- Scenario ingress for the shared-key demonstration: two distinct
    `(host, path)` advertisements whose concatenations coincide. -/
def c10Ingress : Ingress :=
  { name := "r2", annotations := [],
    rules := [("a.example", [("/app", "svc-a")]), ("a.example/app", [("", "svc-a")])] }

/-- Scenario: the catalog after upserting both advertisements. -/
def c10Monitor : IngressMonitor × TaskSys :=
  (IngressMonitor.new "microfe/").update_ingress_host_paths c10Ingress "default" 3 sys0

/-- Scenario: a fresh catalog entry (used by several witnesses). -/
def freshEntry : IngressHostPath × TaskSys :=
  IngressHostPath.new "a.example" "/app" "default" "svc-a" sys0

/-- Scenario: the service monitor sitting inside `freshEntry`. -/
def freshEntrySM : ServiceMonitor :=
  { abort_handle := some 0, nspace := "default", service_name := "svc-a",
    pod_monitor := none }

/-- Scenario annotation map with every key carrying the configured
    prefix. -/
def c5A : List (String × String) :=
  [("microfe/team", "finance"), ("microfe/owner", "alice")]

/-- Scenario event sequence for the monotonicity witness: an annotation
    change at 3 ms, a backing-service change at 5 ms, a selector change
    at 5 ms and a new pod owner at 8 ms. -/
def c4Events : List EntryEvent :=
  [EntryEvent.annotationsUpdate [("team", "x")] 3,
   EntryEvent.svcNameUpdate "svc-b" 5,
   EntryEvent.serviceUpdate [("app", "y")] 5,
   EntryEvent.podUpdate ⟨"p1", "Running", [("ReplicaSet", "rs-1")]⟩ 6 8]

/-- Scenario owner-reference table for the sweep witness. -/
def c7Owners : List (String × Nat) :=
  [("ReplicaSet/rs-0", 2), ("ReplicaSet/rs-1", 3), ("ReplicaSet/rs-2", 9)]

/-- Scenario pod list for the sweep witness: one pod still owned by
    `rs-1`. -/
def c7Pods : List Pod :=
  [{ name := "p1", phase := "Running", owner_references := [("ReplicaSet", "rs-1")] }]

/-- Scenario pod monitor holding `c7Owners`. -/
def c7PodMonitor : PodMonitor :=
  { abort_handle := some 1, nspace := "ns-a", label_selector := "app=demo",
    owner_references := c7Owners, watch_task := 0, sweep_task := 1 }


@[simp]
theorem akeys_nil {α : Type} : akeys ([] : List (String × α)) = [] := rfl

@[simp]
theorem akeys_cons {α : Type} (kv : String × α) (m : List (String × α)) :
    akeys (kv :: m) = kv.1 :: akeys m := rfl

@[simp]
theorem akeys_append {α : Type} (m m' : List (String × α)) :
    akeys (m ++ m') = akeys m ++ akeys m' := by
  simp [akeys]

@[simp]
theorem alookup_nil {α : Type} (k : String) : alookup (α := α) k [] = none := rfl

@[simp]
theorem alookup_cons {α : Type} (k : String) (kv : String × α) (m : List (String × α)) :
    alookup k (kv :: m) = if kv.1 = k then some kv.2 else alookup k m := rfl

theorem alookup_eq_none_iff {α : Type} (k : String) (m : List (String × α)) :
    alookup k m = none ↔ k ∉ akeys m := by
  induction m with
  | nil => simp
  | cons kv m ih =>
    rw [alookup_cons]
    by_cases h : kv.1 = k
    · simp [h]
    · rw [if_neg h, ih, akeys_cons]
      constructor
      · intro hnk hmem
        rcases List.mem_cons.mp hmem with h1 | h1
        · exact h h1.symm
        · exact hnk h1
      · intro hnk hm
        exact hnk (List.mem_cons_of_mem _ hm)

theorem alookup_isSome_iff {α : Type} (k : String) (m : List (String × α)) :
    (alookup k m).isSome = true ↔ k ∈ akeys m := by
  rw [Option.isSome_iff_ne_none]
  constructor
  · intro h
    by_contra hk
    exact h ((alookup_eq_none_iff k m).mpr hk)
  · intro h hnone
    exact ((alookup_eq_none_iff k m).mp hnone) h

theorem alookup_mem {α : Type} {k : String} {v : α} {m : List (String × α)}
    (h : alookup k m = some v) : (k, v) ∈ m := by
  induction m with
  | nil => simp at h
  | cons kv m ih =>
    by_cases hk : kv.1 = k
    · simp only [alookup_cons, if_pos hk, Option.some.injEq] at h
      subst h
      subst hk
      exact List.mem_cons_self _ _
    · simp only [alookup_cons, if_neg hk] at h
      exact List.mem_cons_of_mem _ (ih h)

theorem alookup_eq_some_of_mem_nodup {α : Type} {k : String} {v : α}
    {m : List (String × α)} (hnd : (akeys m).Nodup) (hmem : (k, v) ∈ m) :
    alookup k m = some v := by
  induction m with
  | nil => simp at hmem
  | cons kv m ih =>
    rw [akeys_cons, List.nodup_cons] at hnd
    rcases List.mem_cons.mp hmem with h | h
    · subst h
      simp
    · have hk : kv.1 ≠ k := by
        intro heq
        apply hnd.1
        rw [heq]
        exact List.mem_map_of_mem Prod.fst h
      simp only [alookup_cons, if_neg hk]
      exact ih hnd.2 h

theorem alookup_map_replace {α : Type} (j k : String) (v : α) (m : List (String × α)) :
    alookup j (m.map (fun kv => if kv.1 = k then (k, v) else kv)) =
      if k = j then (if k ∈ akeys m then some v else none) else alookup j m := by
  induction m with
  | nil => simp
  | cons kv m ih =>
    by_cases hk : kv.1 = k
    · by_cases hj : k = j
      · subst hj
        simp [hk]
      · have hj' : kv.1 ≠ j := fun h => hj (hk ▸ h)
        simp only [List.map_cons, if_pos hk, alookup_cons, if_neg hj, if_neg hj', ih,
          if_neg hj, akeys_cons]
    · by_cases hj : kv.1 = j
      · have hkj : ¬ (k = j) := fun h => hk (hj.trans h.symm)
        simp only [List.map_cons, alookup_cons, if_neg hk, if_pos hj, if_neg hkj]
      · have hmm : (k ∈ akeys (kv :: m)) ↔ (k ∈ akeys m) := by
          rw [akeys_cons, List.mem_cons]
          constructor
          · rintro (h1 | h1)
            · exact absurd h1.symm hk
            · exact h1
          · exact fun h1 => Or.inr h1
        simp only [List.map_cons, alookup_cons, if_neg hk, if_neg hj, ih]
        by_cases hkj : k = j
        · rw [if_pos hkj, if_pos hkj]
          simp only [hmm]
        · rw [if_neg hkj, if_neg hkj]

theorem alookup_append_singleton {α : Type} (j k : String) (v : α)
    (m : List (String × α)) :
    alookup j (m ++ [(k, v)]) =
      match alookup j m with
      | some w => some w
      | none => if k = j then some v else none := by
  induction m with
  | nil => simp
  | cons kv m ih =>
    by_cases hj : kv.1 = j
    · simp [hj]
    · simp only [List.cons_append, alookup_cons, if_neg hj, ih]

theorem alookup_ainsert {α : Type} (j k : String) (v : α) (m : List (String × α)) :
    alookup j (ainsert m k v) = if k = j then some v else alookup j m := by
  by_cases hmem : k ∈ akeys m
  · rw [ainsert, if_pos hmem, alookup_map_replace, if_pos hmem]
  · rw [ainsert, if_neg hmem, alookup_append_singleton]
    by_cases hkj : k = j
    · subst hkj
      rw [(alookup_eq_none_iff k m).mpr hmem]
    · cases h : alookup j m <;> simp [hkj]

theorem akeys_ainsert_mem {α : Type} {m : List (String × α)} {k : String} (v : α)
    (h : k ∈ akeys m) : akeys (ainsert m k v) = akeys m := by
  rw [ainsert, if_pos h]
  show List.map Prod.fst (m.map _) = List.map Prod.fst m
  rw [List.map_map]
  apply List.map_congr_left
  intro kv _
  by_cases hk : kv.1 = k
  · simp [hk]
  · simp [hk]

theorem akeys_ainsert_not_mem {α : Type} {m : List (String × α)} {k : String} (v : α)
    (h : k ∉ akeys m) : akeys (ainsert m k v) = akeys m ++ [k] := by
  rw [ainsert, if_neg h]
  simp

theorem akeys_nodup_ainsert {α : Type} {m : List (String × α)} (k : String) (v : α)
    (hnd : (akeys m).Nodup) : (akeys (ainsert m k v)).Nodup := by
  by_cases hmem : k ∈ akeys m
  · rw [akeys_ainsert_mem v hmem]
    exact hnd
  · rw [akeys_ainsert_not_mem v hmem]
    simpa [List.nodup_append] using ⟨hnd, hmem⟩

theorem amapCollect_keys_nodup {α : Type} (l : List (String × α)) :
    (akeys (amapCollect l)).Nodup := by
  suffices h : ∀ m : List (String × α), (akeys m).Nodup →
      (akeys (l.foldl (fun m kv => ainsert m kv.1 kv.2) m)).Nodup by
    exact h [] (by simp)
  induction l with
  | nil =>
    intro m hm
    simpa using hm
  | cons kv l ih =>
    intro m hm
    exact ih _ (akeys_nodup_ainsert kv.1 kv.2 hm)

theorem amapCollect_eq_self {α : Type} {l : List (String × α)}
    (hnd : (akeys l).Nodup) : amapCollect l = l := by
  induction l using List.reverseRecOn with
  | nil => rfl
  | append_singleton l kv ih =>
    rw [akeys_append, List.nodup_append] at hnd
    obtain ⟨hl,
      -, hdisj⟩ := hnd
    have hk : kv.1 ∉ akeys l := by
      intro hmem
      exact hdisj hmem (by simp)
    have hstep : amapCollect (l ++ [kv]) = ainsert (amapCollect l) kv.1 kv.2 := by
      simp [amapCollect, List.foldl_append]
    rw [hstep, ih hl, ainsert, if_neg hk]

theorem replaceFirstAux_of_isPrefixOf {pat l : List Char}
    (h : pat.isPrefixOf l = true) : replaceFirstAux pat l = l.drop pat.length := by
  cases l with
  | nil =>
    cases pat with
    | nil => rfl
    | cons c cs => simp [List.isPrefixOf] at h
  | cons c cs =>
    rw [replaceFirstAux, if_pos h]

theorem replacen1_of_rStartsWith {s p : String} (h : rStartsWith s p = true) :
    p.data ++ (replacen1 s p).data = s.data := by
  have hpre : p.data <+: s.data := by
    rw [← List.isPrefixOf_iff_prefix]
    exact h
  obtain ⟨t, ht⟩ := hpre
  have : (replacen1 s p).data = s.data.drop p.data.length := by
    simp [replacen1, replaceFirstAux_of_isPrefixOf (by simpa [rStartsWith] using h)]
  rw [this, ← ht, List.drop_left]

theorem replacen1_injOn {a b p : String} (ha : rStartsWith a p = true)
    (hb : rStartsWith b p = true) (h : replacen1 a p = replacen1 b p) : a = b := by
  have h1 := replacen1_of_rStartsWith ha
  have h2 := replacen1_of_rStartsWith hb
  have hdata : a.data = b.data := by
    rw [← h1, ← h2, h]
  cases a
  cases b
  exact congrArg String.mk hdata

/-- Claim C10: the catalog key is the plain concatenation `host ++ path`
    with no separator, and this map is not injective: the distinct
    advertisements `("a.example", "/app")` and `("a.example/app", "")`
    produce the same key, so upserting both of them yields a single
    shared catalog entry. -/
theorem c10_identifier_shared_key :
    (∀ host path, IngressHostPath.identifier host path = host ++ path) ∧
    IngressHostPath.identifier "a.example" "/app" =
      IngressHostPath.identifier "a.example/app" "" ∧
    (("a.example", "/app") ≠ (("a.example/app" : String), ("" : String))) ∧
    c10Monitor.1.monitored_ingress_host_paths.length = 1 := by
  refine ⟨fun host path => rfl, by decide, by decide, by decide⟩

/-- Claim C2 (failing-input evaluation): `PodMonitor::new` spawns the
    pod watch task (id 0) and the sweep task (id 1), but stores only the
    sweep task's abort handle — the watch task's `JoinHandle` is
    discarded at the spawn. Consequently `abort_background_tasks` aborts
    the sweep task while the watch task stays live, contradicting the
    claim that both background tasks are aborted. -/
theorem c2_abort_leaves_watch_task_live :
    c2PodMonitor.1.watch_task = 0 ∧ c2PodMonitor.1.sweep_task = 1 ∧
    c2PodMonitor.1.abort_handle = some 1 ∧
    (0 ∈ c2PodMonitor.2.live ∧ 1 ∈ c2PodMonitor.2.live) ∧
    1 ∉ c2After.live ∧ 0 ∈ c2After.live := by
  decide

/-- Claim C1 (failing-input evaluation): after a catalog entry (service
    watch task 0, pod watch task 1) is removed on an ingress Delete, the
    entry is gone from the catalog but both watcher tasks are still
    live: `remove_ingress_host_paths` only removes the map entry,
    invokes no abort handle, and the source has no `Drop` implementation
    that would do so. -/
theorem c1_remove_does_not_abort_watcher_tasks :
    (alookup "a.example/app" c1Final.monitored_ingress_host_paths).isNone = true ∧
    0 ∈ c1Step2.2.live ∧ 1 ∈ c1Step2.2.live := by
  decide

/-- Claim C3 (failing-input evaluation): with no configuration file and
    no environment variables, `AppConfig::new` registers the ingress
    defaults under the prefix `"ingressfilter"` (conf.rs line 115) while
    the struct field deserialized is named `ingress`, so
    `try_deserialize` fails on the missing `ingress` section (and the
    source's `unwrap` panics) instead of succeeding with label selector
    `microfe=true` and annotation prefix `microfe/`. The intended
    defaults sit unreachable under `ingressfilter.*`. -/
theorem c3_appconfig_defaults_miss_ingress_section (cpus : String)
    (memory : Option String) :
    AppConfig.new_model cpus memory = Except.error "missing field ingress.labels" ∧
    alookup "ingress.labels" (AppConfig.new_merged_config cpus memory) = none ∧
    alookup "ingressfilter.labels" (AppConfig.new_merged_config cpus memory) =
      some "microfe=true" ∧
    alookup "ingressfilter.annotationprefix" (AppConfig.new_merged_config cpus memory) =
      some "microfe/" := by
  refine ⟨?_, ?_, rfl, rfl⟩
  · cases memory <;> rfl
  · cases memory <;> rfl

theorem upsertHostPath_health_ready (m : IngressMonitor) (sys : TaskSys)
    (nspace : String) (anns : List (String × String)) (t : String × String × String)
    (now : Nat) :
    (upsertHostPath m sys nspace anns t now).1.health_ready = m.health_ready := by
  rw [upsertHostPath]
  split
  · split <;> rfl
  · split <;> rfl

theorem upsertHostPath_annotationPfx (m : IngressMonitor) (sys : TaskSys)
    (nspace : String) (anns : List (String × String)) (t : String × String × String)
    (now : Nat) :
    (upsertHostPath m sys nspace anns t now).1.annotationPfx = m.annotationPfx := by
  rw [upsertHostPath]
  split
  · split <;> rfl
  · split <;> rfl

theorem update_ingress_host_paths_health_ready (m : IngressMonitor) (ing : Ingress)
    (nspace : String) (now : Nat) (sys : TaskSys) :
    (m.update_ingress_host_paths ing nspace now sys).1.health_ready = m.health_ready := by
  rw [IngressMonitor.update_ingress_host_paths]
  generalize ingressHostPathTriples ing = ts
  induction ts generalizing m sys with
  | nil => rfl
  | cons t ts ih =>
    rw [List.foldl_cons]
    have h := ih (upsertHostPath m sys nspace ing.annotations t now).1
      (upsertHostPath m sys nspace ing.annotations t now).2
    rw [h, upsertHostPath_health_ready]

theorem remove_ingress_host_paths_health_ready (m : IngressMonitor) (ing : Ingress) :
    (m.remove_ingress_host_paths ing).health_ready = m.health_ready := rfl

theorem foldl_monStep_health_ready (evs : List MonEvent) (p : IngressMonitor × TaskSys) :
    (evs.foldl monStep p).1.health_ready =
      (p.1.health_ready || evs.any MonEvent.isListOk) := by
  induction evs generalizing p with
  | nil => simp
  | cons ev evs ih =>
    rw [List.foldl_cons, ih, List.any_cons]
    cases ev with
    | listOk ns ings now =>
      have hup : (monStep p (MonEvent.listOk ns ings now)).1.health_ready = true := rfl
      rw [hup]
      simp [MonEvent.isListOk]
    | listErr ns =>
      simp [monStep, MonEvent.isListOk]
    | applied ns ing still now =>
      have h : (monStep p (MonEvent.applied ns ing still now)).1.health_ready =
          p.1.health_ready := by
        rw [monStep]
        split
        · rw [update_ingress_host_paths_health_ready]
        · rw [remove_ingress_host_paths_health_ready]
      rw [h]
      simp [MonEvent.isListOk]
    | deleted ns ing =>
      have h : (monStep p (MonEvent.deleted ns ing)).1.health_ready =
          p.1.health_ready := remove_ingress_host_paths_health_ready p.1 ing
      rw [h]
      simp [MonEvent.isListOk]
    | restarted =>
      simp [monStep, MonEvent.isListOk]

/-- Claim C8: for every reachable monitor state (a fresh monitor run over
    any sequence of watch events), `is_health_started` and
    `is_health_ready` return the same value (both load the single
    `health_ready` flag, which becomes true exactly when some
    namespace's initial ingress list completes successfully), and
    `is_health_live` returns true on every call. -/
theorem c8_health_aliasing (pfx : String) (sys : TaskSys) (evs : List MonEvent) :
    (runMonitor pfx sys evs).1.is_health_started =
      (runMonitor pfx sys evs).1.is_health_ready ∧
    (runMonitor pfx sys evs).1.is_health_live = true ∧
    ((runMonitor pfx sys evs).1.is_health_started = true ↔
      ∃ ev ∈ evs, ev.isListOk = true) := by
  refine ⟨rfl, rfl, ?_⟩
  rw [IngressMonitor.is_health_started, runMonitor, foldl_monStep_health_ready]
  simp [IngressMonitor.new, List.any_eq_true]

theorem filterAnnotations_eq_nil {pfx : String} {anns : List (String × String)}
    (h : ∀ kv ∈ anns, rStartsWith kv.1 pfx = false) :
    filterAnnotations pfx anns = [] := by
  rw [filterAnnotations]
  have hfm : anns.filterMap (fun kv =>
      if rStartsWith kv.1 pfx then some (replacen1 kv.1 pfx, kv.2) else none) = [] := by
    induction anns with
    | nil => rfl
    | cons kv anns ih =>
      rw [List.filterMap_cons, h kv (List.mem_cons_self kv anns)]
      exact ih (fun kv' hm => h kv' (List.mem_cons_of_mem kv hm))
  rw [hfm]
  rfl

/-- Claim C9: a freshly created catalog entry's `updated_millis` is 0 and
    entry creation writes nothing to it; upserting a rule that carries no
    prefixed annotations into a catalog where its key is absent creates
    the entry and leaves `updated_millis` at 0 (the same-name
    `service_name_update` and the empty-set `annotations_update` are both
    no-ops), so readers see `updated = 0`. -/
theorem c9_fresh_entry_updated_zero (host path nspace svc : String) (sys : TaskSys)
    (m : IngressMonitor) (ing : Ingress) (now : Nat)
    (hrules : ing.rules = [(host, [(path, svc)])])
    (hanns : ∀ kv ∈ ing.annotations, rStartsWith kv.1 m.annotationPfx = false)
    (habsent : alookup (IngressHostPath.identifier host path)
        m.monitored_ingress_host_paths = none) :
    (IngressHostPath.new host path nspace svc sys).1.updated_millis = 0 ∧
    ((alookup (IngressHostPath.identifier host path)
        (m.update_ingress_host_paths ing nspace now sys).1.monitored_ingress_host_paths).map
      IngressHostPath.updated_millis) = some 0 := by
  constructor
  · rfl
  · have htrip : ingressHostPathTriples ing = [(host, path, svc)] := by
      rw [ingressHostPathTriples, hrules]
      rfl
    rw [IngressMonitor.update_ingress_host_paths, htrip, List.foldl_cons, List.foldl_nil]
    rw [upsertHostPath]
    simp only [habsent, Option.isSome_none, Bool.false_eq_true, if_false,
      alookup_ainsert, if_pos rfl]
    rw [filterAnnotations_eq_nil hanns]
    simp [IngressHostPath.new, ServiceMonitor.new, IngressHostPath.service_name_update,
      IngressHostPath.annotations_update, annotationsChange, alookup_ainsert, TaskSys.spawn]

theorem c9_fresh_entry_updated_zero_witness :
    (∀ kv ∈ c1Ingress.annotations,
      rStartsWith kv.1 (IngressMonitor.new "microfe/").annotationPfx = false) ∧
    ((alookup (IngressHostPath.identifier "a.example" "/app")
        (((IngressMonitor.new "microfe/").update_ingress_host_paths c1Ingress "default" 5
          sys0).1.monitored_ingress_host_paths)).map
      IngressHostPath.updated_millis) = some 0 :=
  ⟨by decide,
   (c9_fresh_entry_updated_zero "a.example" "/app" "default" "svc-a" sys0
      (IngressMonitor.new "microfe/") c1Ingress 5 rfl (by decide) rfl).2⟩

theorem pod_abort_preserves_nextId (pm : PodMonitor) (sys : TaskSys) :
    (pm.abort_background_tasks sys).nextId = sys.nextId := by
  rw [PodMonitor.abort_background_tasks]
  cases pm.abort_handle <;> rfl

theorem PodMonitor.abort_background_tasks_live_subset (pm : PodMonitor) (sys : TaskSys) :
    (pm.abort_background_tasks sys).live ⊆ sys.live := by
  rw [PodMonitor.abort_background_tasks]
  cases pm.abort_handle with
  | none => exact fun a ha => ha
  | some h => exact fun a ha => List.mem_of_mem_erase ha

theorem sm_abort_preserves_nextId (sm : ServiceMonitor) (sys : TaskSys) :
    (sm.abort_background_tasks sys).nextId = sys.nextId := by
  rw [ServiceMonitor.abort_background_tasks]
  cases sm.abort_handle <;> cases sm.pod_monitor <;>
    simp [pod_abort_preserves_nextId, TaskSys.abort]

theorem ServiceMonitor.abort_own_handle_dead (sm : ServiceMonitor) (sys : TaskSys)
    (h : Nat) (hnd : sys.live.Nodup) (hh : sm.abort_handle = some h) :
    h ∉ (sm.abort_background_tasks sys).live := by
  rw [ServiceMonitor.abort_background_tasks, hh]
  intro hmem
  have h1 : h ∈ (sys.abort h).live := by
    cases hpm : sm.pod_monitor with
    | none =>
      rw [hpm] at hmem
      exact hmem
    | some pm =>
      rw [hpm] at hmem
      exact PodMonitor.abort_background_tasks_live_subset pm _ hmem
  exact absurd h1 hnd.not_mem_erase

/-- Claim C6: `update_service_name(new_name)` is a no-op when the name
    equals the current ServiceWatcher's name (entry and task state are
    returned unchanged); otherwise it aborts the old ServiceWatcher's
    task, constructs a new ServiceWatcher for the same namespace and the
    new name (writing through the same shared `updated_millis`, which in
    this embedding lives in the entry itself), installs it with a live
    freshly spawned watch task, and stores the current time, leaving
    host, path and annotations untouched. -/
theorem c6_service_name_update_spec (e : IngressHostPath) (sm : ServiceMonitor)
    (name : String) (now : Nat) (sys : TaskSys)
    (hsm : e.service_monitor = some sm)
    (hnd : sys.live.Nodup)
    (hwf : ∀ h, sm.abort_handle = some h → h < sys.nextId) :
    (sm.service_name = name → e.service_name_update name now sys = (e, sys)) ∧
    (sm.service_name ≠ name →
      ∃ sm' : ServiceMonitor,
        (e.service_name_update name now sys).1.service_monitor = some sm' ∧
        sm'.nspace = sm.nspace ∧
        sm'.service_name = name ∧
        sm'.pod_monitor = none ∧
        (∃ t, sm'.abort_handle = some t ∧
          t ∈ (e.service_name_update name now sys).2.live) ∧
        (∀ h, sm.abort_handle = some h →
          h ∉ (e.service_name_update name now sys).2.live) ∧
        (e.service_name_update name now sys).1.updated_millis = now ∧
        (e.service_name_update name now sys).1.host = e.host ∧
        (e.service_name_update name now sys).1.path = e.path ∧
        (e.service_name_update name now sys).1.annotations = e.annotations) := by
  constructor
  · intro heq
    rw [IngressHostPath.service_name_update, hsm]
    dsimp only
    rw [if_pos heq]
  · intro hne
    have hr : e.service_name_update name now sys =
        ({ e with
            service_monitor :=
              some (ServiceMonitor.new sm.nspace name (sm.abort_background_tasks sys)).1,
            updated_millis := now },
          (ServiceMonitor.new sm.nspace name (sm.abort_background_tasks sys)).2) := by
      rw [IngressHostPath.service_name_update, hsm]
      dsimp only
      rw [if_neg hne]
    rw [hr]
    refine ⟨(ServiceMonitor.new sm.nspace name (sm.abort_background_tasks sys)).1,
      rfl, rfl, rfl, rfl,
      ⟨(sm.abort_background_tasks sys).nextId, rfl, List.mem_cons_self _ _⟩,
      ?_, rfl, rfl, rfl, rfl⟩
    intro h hh hmem
    have hcons : (ServiceMonitor.new sm.nspace name (sm.abort_background_tasks sys)).2.live =
        (sm.abort_background_tasks sys).nextId :: (sm.abort_background_tasks sys).live := rfl
    rw [hcons] at hmem
    rcases List.mem_cons.mp hmem with h1 | h1
    · rw [sm_abort_preserves_nextId] at h1
      exact absurd (h1 ▸ hwf h hh) (Nat.lt_irrefl _)
    · exact ServiceMonitor.abort_own_handle_dead sm sys h hnd hh h1

theorem c6_service_name_update_spec_witness :
    (freshEntrySM.service_name = "svc-b" →
      freshEntry.1.service_name_update "svc-b" 9 freshEntry.2 =
        (freshEntry.1, freshEntry.2)) ∧
    (freshEntrySM.service_name ≠ "svc-b" →
      ∃ sm' : ServiceMonitor,
        (freshEntry.1.service_name_update "svc-b" 9 freshEntry.2).1.service_monitor =
          some sm' ∧
        sm'.nspace = freshEntrySM.nspace ∧
        sm'.service_name = "svc-b" ∧
        sm'.pod_monitor = none ∧
        (∃ t, sm'.abort_handle = some t ∧
          t ∈ (freshEntry.1.service_name_update "svc-b" 9 freshEntry.2).2.live) ∧
        (∀ h, freshEntrySM.abort_handle = some h →
          h ∉ (freshEntry.1.service_name_update "svc-b" 9 freshEntry.2).2.live) ∧
        (freshEntry.1.service_name_update "svc-b" 9 freshEntry.2).1.updated_millis = 9 ∧
        (freshEntry.1.service_name_update "svc-b" 9 freshEntry.2).1.host =
          freshEntry.1.host ∧
        (freshEntry.1.service_name_update "svc-b" 9 freshEntry.2).1.path =
          freshEntry.1.path ∧
        (freshEntry.1.service_name_update "svc-b" 9 freshEntry.2).1.annotations =
          freshEntry.1.annotations) :=
  c6_service_name_update_spec freshEntry.1 freshEntrySM "svc-b" 9 freshEntry.2 rfl
    (by decide)
    (by
      intro h hh
      injection hh with h0
      subst h0
      decide)

theorem akeys_mem_iff {α : Type} (k : String) (m : List (String × α)) :
    k ∈ akeys m ↔ ∃ v, (k, v) ∈ m := by
  constructor
  · intro hk
    obtain ⟨kv, hmem, heq⟩ := List.mem_map.mp hk
    cases kv with
    | mk a b =>
      subst heq
      exact ⟨b, hmem⟩
  · rintro ⟨v, hv⟩
    exact List.mem_map.mpr ⟨(k, v), hv, rfl⟩

theorem alookup_ext_of_sub {α : Type} (S M : List (String × α))
    (hndS : (akeys S).Nodup) (hndM : (akeys M).Nodup)
    (hlen : S.length = M.length)
    (hsub : ∀ kv ∈ S, alookup kv.1 M = some kv.2) :
    ∀ k, alookup k S = alookup k M := by
  have hkeysub : akeys S ⊆ akeys M := by
    intro k hk
    obtain ⟨v, hv⟩ := (akeys_mem_iff k S).mp hk
    exact (alookup_isSome_iff k M).mp (by rw [hsub (k, v) hv]; rfl)
  have hperm : List.Perm (akeys S) (akeys M) := by
    refine (List.subperm_of_subset hndS hkeysub).perm_of_length_le ?_
    have h1 : (akeys S).length = S.length := by simp [akeys]
    have h2 : (akeys M).length = M.length := by simp [akeys]
    omega
  intro k
  by_cases hk : k ∈ akeys S
  · obtain ⟨v, hv⟩ := (akeys_mem_iff k S).mp hk
    rw [alookup_eq_some_of_mem_nodup hndS hv, hsub (k, v) hv]
  · have hk2 : k ∉ akeys M := fun hmm => hk (hperm.mem_iff.mpr hmm)
    rw [(alookup_eq_none_iff k S).mpr hk, (alookup_eq_none_iff k M).mpr hk2]

theorem filterMap_all_prefixed {pfx : String} {A : List (String × String)}
    (h : ∀ kv ∈ A, rStartsWith kv.1 pfx = true) :
    A.filterMap (fun kv =>
      if rStartsWith kv.1 pfx then some (replacen1 kv.1 pfx, kv.2) else none) =
      A.map (fun kv => (replacen1 kv.1 pfx, kv.2)) := by
  induction A with
  | nil => rfl
  | cons kv A ih =>
    rw [List.filterMap_cons, List.map_cons]
    have hfa : (if rStartsWith kv.1 pfx then some (replacen1 kv.1 pfx, kv.2) else none) =
        some (replacen1 kv.1 pfx, kv.2) := by
      rw [if_pos (h kv (List.mem_cons_self kv A))]
    rw [hfa, ih (fun kv' hm => h kv' (List.mem_cons_of_mem kv hm))]

theorem akeys_strip_nodup {pfx : String} {A : List (String × String)}
    (hA : (akeys A).Nodup) (h : ∀ kv ∈ A, rStartsWith kv.1 pfx = true) :
    (akeys (A.map (fun kv => (replacen1 kv.1 pfx, kv.2)))).Nodup := by
  have hmap : akeys (A.map (fun kv => (replacen1 kv.1 pfx, kv.2))) =
      (akeys A).map (fun k => replacen1 k pfx) := by
    simp [akeys, List.map_map]
  rw [hmap]
  refine List.Nodup.map_on ?_ hA
  intro x hx y hy hxy
  obtain ⟨v, hv⟩ := (akeys_mem_iff x A).mp hx
  obtain ⟨w, hw⟩ := (akeys_mem_iff y A).mp hy
  exact replacen1_injOn (h (x, v) hv) (h (y, w) hw) hxy

/-- Claim C5: for an annotations map `A` whose keys all begin with the
    configured prefix, filtering `A` (keep the prefixed keys, strip the
    prefix by a single leading-occurrence removal) and applying one
    `annotations_update` makes the entry's annotations snapshot equal,
    as a map, to `A` with the prefix stripped from every key. -/
theorem c5_annotations_roundtrip (e : IngressHostPath) (pfx : String)
    (A : List (String × String)) (now : Nat)
    (hA : (akeys A).Nodup)
    (hpre : ∀ kv ∈ A, rStartsWith kv.1 pfx = true)
    (he : (akeys e.annotations).Nodup) :
    ∀ k, alookup k (e.annotations_update (filterAnnotations pfx A) now).annotations =
      alookup k (A.map (fun kv => (replacen1 kv.1 pfx, kv.2))) := by
  have hndS : (akeys (A.map (fun kv => (replacen1 kv.1 pfx, kv.2)))).Nodup :=
    akeys_strip_nodup hA hpre
  have hfa : filterAnnotations pfx A = A.map (fun kv => (replacen1 kv.1 pfx, kv.2)) := by
    rw [filterAnnotations, filterMap_all_prefixed hpre, amapCollect_eq_self hndS]
  rw [hfa, IngressHostPath.annotations_update]
  by_cases hch : annotationsChange e.annotations
      (A.map (fun kv => (replacen1 kv.1 pfx, kv.2))) = true
  · rw [if_pos hch]
    intro k
    show alookup k (amapCollect (A.map (fun kv => (replacen1 kv.1 pfx, kv.2)))) = _
    rw [amapCollect_eq_self hndS]
  · rw [if_neg hch]
    rw [Bool.not_eq_true, annotationsChange] at hch
    by_cases hlen : (A.map (fun kv => (replacen1 kv.1 pfx, kv.2))).length ≠
        e.annotations.length
    · rw [if_pos hlen] at hch
      exact absurd hch (by simp)
    · rw [if_neg hlen] at hch
      push_neg at hlen
      have hsub : ∀ kv ∈ A.map (fun kv => (replacen1 kv.1 pfx, kv.2)),
          alookup kv.1 e.annotations = some kv.2 := by
        intro kv hkv
        have hf := (List.any_eq_false.mp hch) kv hkv
        cases halo : alookup kv.1 e.annotations with
        | none =>
          rw [halo] at hf
          simp at hf
        | some v =>
          rw [halo] at hf
          by_cases hv : kv.2 = v
          · rw [hv]
          · simp [hv] at hf
      intro k
      exact (alookup_ext_of_sub _ _ hndS he hlen hsub k).symm

theorem c5_annotations_roundtrip_witness :
    (akeys c5A).Nodup ∧ (∀ kv ∈ c5A, rStartsWith kv.1 "microfe/" = true) ∧
    alookup "team"
      ((freshEntry.1.annotations_update (filterAnnotations "microfe/" c5A) 7).annotations) =
      alookup "team" (c5A.map (fun kv => (replacen1 kv.1 "microfe/", kv.2))) :=
  ⟨by decide, by decide,
   c5_annotations_roundtrip freshEntry.1 "microfe/" c5A 7 (by decide) (by decide)
     (by decide) "team"⟩

theorem akeys_sweepBumpOwner (now : Nat) (m : List (String × Nat)) (o : String) :
    akeys (sweepBumpOwner now m o) = akeys m := by
  rw [sweepBumpOwner]
  by_cases h : (alookup o m).isSome = true
  · rw [if_pos h]
    exact akeys_ainsert_mem now ((alookup_isSome_iff o m).mp h)
  · rw [if_neg h]

theorem alookup_sweepBumpOwner_ne (now : Nat) (m : List (String × Nat)) (o o' : String)
    (hne : o' ≠ o) : alookup o (sweepBumpOwner now m o') = alookup o m := by
  rw [sweepBumpOwner]
  by_cases h : (alookup o' m).isSome = true
  · rw [if_pos h, alookup_ainsert, if_neg hne]
  · rw [if_neg h]

theorem alookup_foldl_sweepBump (now : Nat) (os : List String) :
    ∀ (m : List (String × Nat)) (o : String),
      alookup o (os.foldl (sweepBumpOwner now) m) =
        if o ∈ os ∧ (alookup o m).isSome = true then some now else alookup o m := by
  induction os with
  | nil =>
    intro m o
    simp
  | cons o' os ih =>
    intro m o
    rw [List.foldl_cons, ih]
    by_cases heq : o' = o
    · subst heq
      cases hmem : alookup o' m with
      | none =>
        have hb : sweepBumpOwner now m o' = m := by
          rw [sweepBumpOwner, hmem]
          rfl
        rw [hb, hmem]
        simp [hmem]
      | some ts =>
        have hb : sweepBumpOwner now m o' = ainsert m o' now := by
          rw [sweepBumpOwner, hmem]
          rfl
        rw [hb, alookup_ainsert, if_pos rfl]
        simp
    · rw [alookup_sweepBumpOwner_ne now m o o' heq]
      have hiff : (o ∈ o' :: os) ↔ (o ∈ os) := by
        rw [List.mem_cons]
        constructor
        · rintro (h1 | h1)
          · exact absurd h1.symm heq
          · exact h1
        · exact Or.inr
      simp only [hiff]

theorem sweepListPhase_eq_foldl (pods : List Pod) (now : Nat) :
    ∀ m : List (String × Nat),
      sweepListPhase m pods now = (podOwnerKeys pods).foldl (sweepBumpOwner now) m := by
  induction pods with
  | nil => intro m; rfl
  | cons pod pods ih =>
    intro m
    rw [sweepListPhase, List.foldl_cons, podOwnerKeys, List.map_cons, List.flatten_cons,
      List.foldl_append]
    rw [← sweepListPhase, ih, podOwnerKeys]

theorem akeys_foldl_sweepBump (now : Nat) (os : List String) :
    ∀ m : List (String × Nat), akeys (os.foldl (sweepBumpOwner now) m) = akeys m := by
  induction os with
  | nil => intro m; rfl
  | cons o os ih =>
    intro m
    rw [List.foldl_cons, ih, akeys_sweepBumpOwner]

theorem alookup_filter_pred (pred : String × Nat → Bool) :
    ∀ (m : List (String × Nat)), (akeys m).Nodup → ∀ k,
      alookup k (m.filter pred) =
        match alookup k m with
        | some v => if pred (k, v) then some v else none
        | none => none := by
  intro m
  induction m with
  | nil =>
    intro _ k
    rfl
  | cons kv m ih =>
    intro hnd k
    rw [akeys_cons, List.nodup_cons] at hnd
    by_cases hk : kv.1 = k
    · subst hk
      cases hp : pred kv with
      | true =>
        rw [List.filter_cons_of_pos hp]
        have : pred (kv.1, kv.2) = true := by
          cases kv
          exact hp
        simp [this]
      | false =>
        rw [List.filter_cons_of_neg (by simp [hp])]
        have hnone : alookup kv.1 (m.filter pred) = none := by
          rw [alookup_eq_none_iff]
          intro hmem
          apply hnd.1
          have hsub : akeys (m.filter pred) ⊆ akeys m := by
            intro a ha
            obtain ⟨v, hv⟩ := (akeys_mem_iff a _).mp ha
            exact (akeys_mem_iff a m).mpr ⟨v, List.mem_of_mem_filter hv⟩
          exact hsub hmem
        rw [hnone]
        have : pred (kv.1, kv.2) = false := by
          cases kv
          exact hp
        simp [this]
    · rw [alookup_cons, if_neg hk]
      cases hp : pred kv with
      | true =>
        rw [List.filter_cons_of_pos hp, alookup_cons, if_neg hk]
        exact ih hnd.2 k
      | false =>
        rw [List.filter_cons_of_neg (by simp [hp])]
        exact ih hnd.2 k

/-- Claim C7: one sweep pass with captured time `now_s` and listed pod
    set `pods` bumps the stored timestamp to `now_s` for every owner of
    a listed pod that already exists in `owner_references` (inserting no
    absent owner), and then removes exactly the entries whose timestamp
    is strictly below `now_s`, keeping those at or above it. Stated as a
    per-owner characterization of the resulting map. -/
theorem c7_sweep_pass_spec (pm : PodMonitor) (pods : List Pod) (now_s : Nat)
    (hnd : (akeys pm.owner_references).Nodup) (o : String) :
    alookup o (pm.sweep_pass pods now_s).owner_references =
      match alookup o pm.owner_references with
      | none => none
      | some ts =>
        if o ∈ podOwnerKeys pods then some now_s
        else if ts < now_s then none else some ts := by
  have hkeys : (akeys (sweepListPhase pm.owner_references pods now_s)).Nodup := by
    rw [sweepListPhase_eq_foldl, akeys_foldl_sweepBump]
    exact hnd
  have hstep : alookup o (sweepListPhase pm.owner_references pods now_s) =
      if o ∈ podOwnerKeys pods ∧ (alookup o pm.owner_references).isSome = true
      then some now_s else alookup o pm.owner_references := by
    rw [sweepListPhase_eq_foldl, alookup_foldl_sweepBump]
  have hres : alookup o (pm.sweep_pass pods now_s).owner_references =
      match alookup o (sweepListPhase pm.owner_references pods now_s) with
      | some v => if ! decide (v < now_s) then some v else none
      | none => none := by
    rw [PodMonitor.sweep_pass]
    exact alookup_filter_pred _ _ hkeys o
  rw [hres, hstep]
  cases hmem : alookup o pm.owner_references with
  | none =>
    simp
  | some ts =>
    by_cases hin : o ∈ podOwnerKeys pods
    · simp [hin]
    · simp only [hin, false_and, if_false]
      by_cases hlt : ts < now_s
      · simp [hlt]
      · simp [hlt]

theorem c7_sweep_pass_spec_witness :
    (akeys c7PodMonitor.owner_references).Nodup ∧
    alookup "ReplicaSet/rs-0" (c7PodMonitor.sweep_pass c7Pods 5).owner_references =
      none :=
  ⟨by decide, by
    rw [c7_sweep_pass_spec c7PodMonitor c7Pods 5 (by decide) "ReplicaSet/rs-0"]
    decide⟩

theorem entryStep_updated_millis (e : IngressHostPath) (sys : TaskSys) (ev : EntryEvent) :
    (entryStep e sys ev).1.updated_millis = e.updated_millis ∨
    (entryStep e sys ev).1.updated_millis = ev.now_ms := by
  cases ev with
  | svcNameUpdate name now =>
    dsimp only [entryStep, IngressHostPath.service_name_update]
    split
    · exact Or.inl rfl
    · split
      · exact Or.inl rfl
      · exact Or.inr rfl
  | annotationsUpdate anns now =>
    dsimp only [entryStep, IngressHostPath.annotations_update]
    split
    · exact Or.inr rfl
    · exact Or.inl rfl
  | serviceUpdate sel now =>
    dsimp only [entryStep]
    split
    · exact Or.inl rfl
    · split
      · exact Or.inr rfl
      · exact Or.inl rfl
  | podUpdate pod now_s now =>
    dsimp only [entryStep]
    split
    · exact Or.inl rfl
    · split
      · exact Or.inl rfl
      · split
        · exact Or.inr rfl
        · exact Or.inl rfl

theorem updatedTrace_head (e : IngressHostPath) (sys : TaskSys) (evs : List EntryEvent) :
    ∃ rest, updatedTrace e sys evs = e.updated_millis :: rest := by
  cases evs with
  | nil => exact ⟨[], rfl⟩
  | cons ev evs => exact ⟨_, rfl⟩

theorem updatedTrace_chain_aux (evs : List EntryEvent) :
    ∀ (e : IngressHostPath) (sys : TaskSys),
      (∀ t ∈ eventTimes evs, e.updated_millis ≤ t) →
      List.Pairwise (· ≤ ·) (eventTimes evs) →
      List.Chain' (· ≤ ·) (updatedTrace e sys evs) := by
  induction evs with
  | nil =>
    intro e sys _ _
    exact List.chain'_singleton _
  | cons ev evs ih =>
    intro e sys hb hp
    rw [eventTimes, List.map_cons] at hp
    have hp1 := (List.pairwise_cons.mp hp).1
    have hp2 := (List.pairwise_cons.mp hp).2
    have hstep := entryStep_updated_millis e sys ev
    have hhead : e.updated_millis ≤ (entryStep e sys ev).1.updated_millis := by
      rcases hstep with h | h
      · rw [h]
      · rw [h]
        exact hb ev.now_ms (by rw [eventTimes, List.map_cons]; exact List.mem_cons_self _ _)
    have hbound : ∀ t ∈ eventTimes evs, (entryStep e sys ev).1.updated_millis ≤ t := by
      intro t ht
      rcases hstep with h | h
      · rw [h]
        exact hb t (by rw [eventTimes, List.map_cons]; exact List.mem_cons_of_mem _ ht)
      · rw [h]
        exact hp1 t ht
    have hchain := ih (entryStep e sys ev).1 (entryStep e sys ev).2 hbound hp2
    obtain ⟨rest, hrest⟩ :=
      updatedTrace_head (entryStep e sys ev).1 (entryStep e sys ev).2 evs
    rw [updatedTrace, hrest]
    rw [hrest] at hchain
    exact List.Chain'.cons hhead hchain

/-- Claim C4: starting from a fresh entry (`updated_millis = 0`), under
    the precondition that successive wall-clock millisecond reads are
    non-decreasing, the entry's `updated_millis` is non-decreasing along
    any sequence of operations: every write (annotation change,
    backing-service-name change, service-selector change, new pod owner)
    stores the event's clock value, which is at least every previously
    stored value. -/
theorem c4_updated_millis_monotone (e : IngressHostPath) (sys : TaskSys)
    (evs : List EntryEvent)
    (hchain : List.Chain' (· ≤ ·) (eventTimes evs))
    (h0 : e.updated_millis = 0) :
    List.Chain' (· ≤ ·) (updatedTrace e sys evs) := by
  refine updatedTrace_chain_aux evs e sys ?_ ?_
  · intro t _
    rw [h0]
    exact Nat.zero_le t
  · exact List.chain'_iff_pairwise.mp hchain

theorem c4_updated_millis_monotone_witness :
    List.Chain' (· ≤ ·) (eventTimes c4Events) ∧
    freshEntry.1.updated_millis = 0 ∧
    List.Chain' (· ≤ ·) (updatedTrace freshEntry.1 freshEntry.2 c4Events) :=
  ⟨by simp [eventTimes, c4Events, EntryEvent.now_ms, List.chain'_cons], rfl,
   c4_updated_millis_monotone freshEntry.1 freshEntry.2 c4Events
     (by simp [eventTimes, c4Events, EntryEvent.now_ms, List.chain'_cons]) rfl⟩
